import Mathlib

/-!
Verification of the term categorization and aggregation engine of
`src/modeling.py` (functions `categorize_terms`,
`analyze_text_with_huggingface`, `process_single_paper`,
`process_articles`).

Python dictionaries are embedded as insertion-ordered association lists
(`List (String × _)`); `collections.Counter` and `defaultdict(int)`
accumulation are embedded by the explicit update functions `ctrAdd` and
`bucketAdd` below, which update the entry in place when the key is present
and append a fresh entry otherwise, exactly as a Python dict does.
Exceptions are embedded as `Except PyError`.  Classifier confidence scores
(Python floats) are embedded as rationals; the claims under study only
compare scores against the fixed threshold 0.3.
-/

/-- Python exception classes raised by the code under study. -/
inductive PyError where
  | typeError (msg : String)
  | keyError (key : String)
  | attributeError (msg : String)
deriving DecidableEq, Repr

/-- Lookup in an insertion-ordered association list: the value stored at the
first entry whose key matches, i.e. Python `d[k]` / `d.get(k)` on a dict. -/
def alookup {α : Type} : List (String × α) → String → Option α
  | [], _ => none
  | (k, v) :: rest, key => if k = key then some v else alookup rest key

/-- Lookup with default 0, i.e. Python `Counter.__getitem__` / `defaultdict(int)` read. -/
def lookupD (m : List (String × Nat)) (k : String) : Nat :=
  (alookup m k).getD 0

/-- Two-level lookup with default 0 into a nested count structure. -/
def lookupD2 (b : List (String × List (String × Nat))) (cat term : String) : Nat :=
  lookupD ((alookup b cat).getD []) term

/-- Python `d[k] += c` on an int-defaulting dict: bump the first entry with the
given key, or append `(k, c)` at the end (insertion order) when absent. -/
def ctrAdd : List (String × Nat) → String → Nat → List (String × Nat)
  | [], k, c => [(k, c)]
  | (k1, v) :: rest, k, c =>
      if k1 = k then (k1, v + c) :: rest else (k1, v) :: ctrAdd rest k c

/-- Python `Counter` increment `m[k] += 1` (modeling.py:159). -/
def counterInc (m : List (String × Nat)) (k : String) : List (String × Nat) :=
  ctrAdd m k 1

/-- Python `Counter.__add__` (modeling.py:192): keys of the left counter first
(each summed with the right count of the same key), then the keys only in the
right counter, keeping only strictly positive totals. -/
def counterAdd (a b : List (String × Nat)) : List (String × Nat) :=
  (a.filterMap (fun p =>
      if 0 < p.2 + lookupD b p.1 then some (p.1, p.2 + lookupD b p.1) else none))
    ++ (b.filterMap (fun p =>
      if (alookup a p.1).isNone ∧ 0 < p.2 then some p else none))

/-- Python `categorized[cat][term] += count` on a
`defaultdict(lambda: defaultdict(int))` (modeling.py:102): bump the nested
entry in place, appending missing outer/inner keys in insertion order. -/
def bucketAdd (b : List (String × List (String × Nat))) (cat term : String)
    (c : Nat) : List (String × List (String × Nat)) :=
  match b with
  | [] => [(cat, [(term, c)])]
  | (cat1, m) :: rest =>
      if cat1 = cat then (cat1, ctrAdd m term c) :: rest
      else (cat1, m) :: bucketAdd rest cat term c

/-- Taxonomy list `mental_health_terms` (modeling.py:80). -/
def mental_health_terms : List String :=
  ["depression", "bipolar", "PTSD", "anxiety", "suicide", "generational trauma"]

/-- Taxonomy list `epigenetic_terms` (modeling.py:81). -/
def epigenetic_terms : List String :=
  ["DNA methylation", "BDNF", "SLC6A4", "FKBP5", "OXTR", "stress response",
   "HPA axis dysregulation"]

/-- Taxonomy dict `ethnographic_terms` (modeling.py:82-89): subcategory name
mapped to its list of terms, in source insertion order. -/
def ethnographic_terms : List (String × List String) :=
  [("African descent", ["African person", "Black person", "African-American person"]),
   ("Latino/Hispanic descent", ["Latino person", "Hispanic person", "Latinx community"]),
   ("Asian descent", ["Asian person", "South Asian person", "East Asian person"]),
   ("Native American descent", ["Indigenous person", "Native American person", "First Nations person"]),
   ("Arab descent", ["Arab person", "Middle-Eastern person", "Muslim person"]),
   ("European descent", ["European person", "Caucasian person", "White person"])]

/-- Taxonomy list `socioeconomic_terms` (modeling.py:90). -/
def socioeconomic_terms : List String :=
  ["low-income", "middle-income", "high-income"]

/-- The runtime shape of a value stored in a taxonomy dict: in
`categorize_terms` a subcategory value is either a list of terms or a further
nested dict (the `isinstance(subterms, list)` / `isinstance(subterms, dict)`
branches at modeling.py:113/116). -/
inductive SubTerms where
  | strList (ts : List String)
  | strDict (d : List (String × List String))
deriving DecidableEq, Repr

/-- The runtime shape of the `categories` argument of `categorize_terms`:
a dict of subcategories (modeling.py:110) or a flat list (modeling.py:121). -/
inductive Categories where
  | dict (cs : List (String × SubTerms))
  | list (ts : List String)
deriving DecidableEq, Repr

/-- The `ethnographic_terms` dict as it is passed to `categorize_terms`
(modeling.py:199): every subcategory value is a list. -/
def ethnographic_categories : Categories :=
  Categories.dict (ethnographic_terms.map (fun p => (p.1, SubTerms.strList p.2)))

/-- Inner loop of the dict branch of `categorize_terms` (modeling.py:117-120):
scan a nested dict of subcategories, add the count to the first subcategory
whose term list contains the term (the inner `break`), leave the bucket
unchanged when none matches. -/
def addInner (b : List (String × List (String × Nat)))
    (d : List (String × List String)) (term : String) (count : Nat) :
    List (String × List (String × Nat)) :=
  match d with
  | [] => b
  | (subcategory, nested_terms) :: rest =>
      if term ∈ nested_terms then bucketAdd b subcategory term count
      else addInner b rest term count

/-- Outer loop body of the dict branch of `categorize_terms`
(modeling.py:112-120) for one `(term, count)` pair: scan the subcategories in
insertion order; a list-valued subcategory containing the term receives the
count and stops the scan (the `break` at modeling.py:115); a dict-valued
subcategory is scanned by `addInner` and, its `break` being inner only, the
outer scan then continues with the remaining subcategories. -/
def addNested (b : List (String × List (String × Nat)))
    (cs : List (String × SubTerms)) (term : String) (count : Nat) :
    List (String × List (String × Nat)) :=
  match cs with
  | [] => b
  | (category, SubTerms.strList subterms) :: rest =>
      if term ∈ subterms then bucketAdd b category term count
      else addNested b rest term count
  | (_, SubTerms.strDict d) :: rest =>
      addNested (addInner b d term count) rest term count

/-- Per-pair step of `categorize_terms`: dict branch (modeling.py:110-120) or
list branch (modeling.py:121-124, bucket "General", terms not in the taxonomy
ignored). -/
def catStep (b : List (String × List (String × Nat))) (categories : Categories)
    (term : String) (count : Nat) : List (String × List (String × Nat)) :=
  match categories with
  | Categories.dict cs => addNested b cs term count
  | Categories.list ts =>
      if term ∈ ts then bucketAdd b "General" term count else b

/-- Iteration of `catStep` over `term_counts.items()` in insertion order. -/
def catFold (categories : Categories) (term_counts : List (String × Nat))
    (b : List (String × List (String × Nat))) :
    List (String × List (String × Nat)) :=
  match term_counts with
  | [] => b
  | p :: rest => catFold categories rest (catStep b categories p.1 p.2)

/-- Function `categorize_terms` (modeling.py:92-127) on a term-to-count dict.
The guard at modeling.py:106 evaluates
`term_counts.get("mental health terms", {})`: on a term-to-count dict this is
an int when the key is present (hence not a dict, and `TypeError` is raised)
and the default `{}` (a dict, so the guard passes) when absent.  After the
guard, each `(term, count)` pair is dispatched through the dict or list
branch; the function never fails past the guard. -/
def categorize_terms (term_counts : List (String × Nat))
    (categories : Categories) :
    Except PyError (List (String × List (String × Nat))) :=
  match alookup term_counts "mental health terms" with
  | some _ => Except.error (PyError.typeError "Expected term_counts to be a dictionary.")
  | none => Except.ok (catFold categories term_counts [])

/-- Weight of one inner-dict scan: 1 exactly when the scan of `d` for term
`tm` lands its single addition on bucket `(s, t)`. -/
def innerWeight (d : List (String × List String)) (tm s t : String) : Nat :=
  match d with
  | [] => 0
  | (name, ts) :: rest =>
      if tm ∈ ts then (if s = name ∧ t = tm then 1 else 0)
      else innerWeight rest tm s t

/-- Weight of one outer scan of the dict branch: how many times processing the
single pair `(tm, c)` adds `c` to bucket `(s, t)`. -/
def nestedWeight (cs : List (String × SubTerms)) (tm s t : String) : Nat :=
  match cs with
  | [] => 0
  | (name, SubTerms.strList ts) :: rest =>
      if tm ∈ ts then (if s = name ∧ t = tm then 1 else 0)
      else nestedWeight rest tm s t
  | (_, SubTerms.strDict d) :: rest =>
      innerWeight d tm s t + nestedWeight rest tm s t

/-- Weight of one `catStep`: how many times processing the pair `(tm, c)`
adds `c` to bucket `(s, t)`. -/
def stepWeight (categories : Categories) (tm s t : String) : Nat :=
  match categories with
  | Categories.dict cs => nestedWeight cs tm s t
  | Categories.list ts =>
      if tm ∈ ts then (if s = "General" ∧ t = tm then 1 else 0) else 0

/-- First subcategory of a taxonomy dict whose list of terms contains the
term, in insertion order; dict-valued subcategories are skipped (this helper
is only used under the hypothesis that every subcategory value is a list). -/
def firstMatch (cs : List (String × SubTerms)) (tm : String) : Option String :=
  match cs with
  | [] => none
  | (name, SubTerms.strList ts) :: rest =>
      if tm ∈ ts then some name else firstMatch rest tm
  | (_, SubTerms.strDict _) :: rest => firstMatch rest tm

/-- Test for the list shape of a subcategory value. -/
def isStrList : SubTerms → Bool
  | SubTerms.strList _ => true
  | SubTerms.strDict _ => false

/-- A taxonomy dict all of whose subcategory values are lists of terms (the
shape of `ethnographic_terms`). -/
def AllLists (cs : List (String × SubTerms)) : Prop :=
  ∀ e ∈ cs, isStrList e.2 = true

/-- A term appears in no bucket of a categorized result. -/
def NotInBucket (b : List (String × List (String × Nat))) (t : String) : Prop :=
  ∀ s m, (s, m) ∈ b → alookup m t = none

/-- A term-count dict with each count doubled. -/
def doubleCounts (tc : List (String × Nat)) : List (String × Nat) :=
  tc.map (fun p => (p.1, 2 * p.2))

/-- A Python runtime value, as far as the entry check of `categorize_terms`
needs to distinguish shapes: ints, strings, dicts and lists. -/
inductive PyVal where
  | int (n : Nat)
  | str (s : String)
  | dict (entries : List (String × PyVal))
  | pyList (items : List PyVal)

/-- Entry behavior of `categorize_terms` (modeling.py:105-107) on an arbitrary
runtime value, under Python attribute semantics: evaluating
`term_counts.get("mental health terms", {})` on a non-dict raises
`AttributeError` (ints, strings and lists have no `get` attribute) before the
`isinstance` test can run; on a dict it returns the stored value, or the
default `{}` when the key is absent, and the `isinstance` test then raises
`TypeError` exactly when that value is not a dict. -/
def categorize_terms_entry_check : PyVal → Except PyError Unit
  | PyVal.dict entries =>
      match (alookup entries "mental health terms").getD (PyVal.dict []) with
      | PyVal.dict _ => Except.ok ()
      | _ => Except.error (PyError.typeError "Expected term_counts to be a dictionary.")
  | PyVal.int _ => Except.error (PyError.attributeError "int object has no attribute get")
  | PyVal.str _ => Except.error (PyError.attributeError "str object has no attribute get")
  | PyVal.pyList _ => Except.error (PyError.attributeError "list object has no attribute get")

/-- Classification of the outcome of the entry check by Python exception
class. -/
def errClass : Except PyError Unit → String
  | Except.ok _ => "ok"
  | Except.error (PyError.typeError _) => "TypeError"
  | Except.error (PyError.keyError _) => "KeyError"
  | Except.error (PyError.attributeError _) => "AttributeError"

/-- A per-document label counter (Python `collections.Counter`). -/
abbrev PyCounter := List (String × Nat)

/-- The external sentence segmentation `sent_tokenize` (modeling.py:144),
taken as a parameter. -/
abbrev SentTokenizer := String → List String

/-- The external zero-shot classifier (modeling.py:153), taken as a
parameter: for a chunk and a candidate label list it either returns the
zipped `(label, score)` pairs of its result or raises. -/
abbrev Classifier := String → List String → Except String (List (String × ℚ))

/-- The confidence threshold 0.3 of modeling.py:158. -/
def confidence_threshold : ℚ := mkRat 3 10

/-- The candidate label list built at modeling.py:140:
`mental_health_terms + epigenetic_terms + list(ethnographic_terms.keys()) +
socioeconomic_terms`.  Note that for the ethnographic taxonomy the
subcategory names (the dict keys), not the terms, are used. -/
def oracleLabels : List String :=
  mental_health_terms ++ epigenetic_terms ++ ethnographic_terms.map Prod.fst
    ++ socioeconomic_terms

/-- Inner loop of modeling.py:157-159 for one chunk result: count every
`(label, score)` pair whose score exceeds the threshold. -/
def chunkContribution (entries : List (String × ℚ)) (acc : PyCounter) : PyCounter :=
  match entries with
  | [] => acc
  | ls :: rest =>
      chunkContribution rest
        (if confidence_threshold < ls.2 then counterInc acc ls.1 else acc)

/-- Chunk loop of `analyze_text_with_huggingface` (modeling.py:149-161): run
the classifier on each chunk; a chunk whose classifier call fails is logged
and skipped (the `except` at modeling.py:160), the loop continues. -/
def analyzeChunks (cl : Classifier) (labels : List String)
    (chunks : List String) (acc : PyCounter) : PyCounter :=
  match chunks with
  | [] => acc
  | chunk :: rest =>
      match cl chunk labels with
      | Except.ok result => analyzeChunks cl labels rest (chunkContribution result acc)
      | Except.error _ => analyzeChunks cl labels rest acc

/-- Function `analyze_text_with_huggingface` (modeling.py:130-164). -/
def analyze_text_with_huggingface (st : SentTokenizer) (cl : Classifier)
    (cleaned_text : String) : PyCounter :=
  analyzeChunks cl oracleLabels (st cleaned_text) []

/-- Number of `(label, score)` entries of one chunk result that match label
`L` with score above the threshold. -/
def qualCount (entries : List (String × ℚ)) (L : String) : Nat :=
  match entries with
  | [] => 0
  | ls :: rest =>
      (if confidence_threshold < ls.2 ∧ ls.1 = L then 1 else 0) + qualCount rest L

/-- Contribution of one chunk to the count of label `L`: zero when the
classifier call on the chunk fails, otherwise the number of qualifying
entries of its result. -/
def chunkLabelCount (cl : Classifier) (labels : List String)
    (chunk L : String) : Nat :=
  match cl chunk labels with
  | Except.ok result => qualCount result L
  | Except.error _ => 0

/-- One input paper (an element of the `papers` array of the input artifact,
modeling.py:20-34). -/
structure Paper where
  paper_name : String
  cleaned_text : String
  term_counts : List (String × List (String × Nat))
deriving DecidableEq, Repr

/-- One output record (modeling.py:203). -/
structure PaperRecord where
  paper_id : Nat
  categorized_counts : List (String × List (String × List (String × Nat)))
deriving DecidableEq, Repr

/-- Python `not s.strip()`: true exactly when every character of `s` is
whitespace (on the ASCII whitespace the inputs use, Python `str.strip` and
`Char.isWhitespace` strip the same characters). -/
def stripIsEmpty (s : String) : Bool :=
  s.toList.all Char.isWhitespace

/-- Python `d[k]` on a dict: the stored value, or `KeyError` when absent. -/
def getKey {α : Type} (m : List (String × α)) (k : String) : Except PyError α :=
  match alookup m k with
  | some v => Except.ok v
  | none => Except.error (PyError.keyError k)

/-- Merge loop of `process_single_paper` (modeling.py:191-192): replace every
top-level category value by `Counter(terms) + additional_terms`. -/
def merge_additional (term_counts : List (String × List (String × Nat)))
    (additional_terms : PyCounter) : List (String × List (String × Nat)) :=
  term_counts.map (fun p => (p.1, counterAdd p.2 additional_terms))

/-- Function `process_single_paper` (modeling.py:167-203).  Skip checks come
first (modeling.py:178-184, before the expensive oracle call); then the
oracle counts are merged into every raw category (modeling.py:191-192); then
the four top-level categories are looked up and categorized in the evaluation
order of the dict literal at modeling.py:195-200, each lookup raising
`KeyError` when its key is missing and each `categorize_terms` call able to
raise `TypeError`; an uncaught exception escapes the worker as an error
result. -/
def process_single_paper (st : SentTokenizer) (cl : Classifier)
    (args : Nat × Paper) : Except PyError (Option PaperRecord) :=
  let paper_index := args.1
  let paper := args.2
  let term_counts := paper.term_counts
  let cleaned_text := paper.cleaned_text
  if term_counts.isEmpty then Except.ok none
  else if stripIsEmpty cleaned_text then Except.ok none
  else
    let additional_terms := analyze_text_with_huggingface st cl cleaned_text
    let merged := merge_additional term_counts additional_terms
    match getKey merged "mental health terms" with
    | Except.error e => Except.error e
    | Except.ok mh =>
    match categorize_terms mh (Categories.list mental_health_terms) with
    | Except.error e => Except.error e
    | Except.ok mhC =>
    match getKey merged "epigenetic terms" with
    | Except.error e => Except.error e
    | Except.ok ep =>
    match categorize_terms ep (Categories.list epigenetic_terms) with
    | Except.error e => Except.error e
    | Except.ok epC =>
    match getKey merged "socioeconomic terms" with
    | Except.error e => Except.error e
    | Except.ok se =>
    match categorize_terms se (Categories.list socioeconomic_terms) with
    | Except.error e => Except.error e
    | Except.ok seC =>
    match getKey merged "ethnographic terms" with
    | Except.error e => Except.error e
    | Except.ok et =>
    match categorize_terms et ethnographic_categories with
    | Except.error e => Except.error e
    | Except.ok etC =>
    Except.ok (some ⟨paper_index,
      [("Mental Health", mhC), ("Epigenetic", epC),
       ("Socioeconomic", seC), ("Ethnographic", etC)]⟩)

/-- Consumption of `list(executor.map(...))` (modeling.py:216): worker results
are consumed in input order; the first worker exception encountered
propagates and aborts the whole collection. -/
def collectResults : List (Except PyError (Option PaperRecord)) →
    Except PyError (List (Option PaperRecord))
  | [] => Except.ok []
  | Except.ok v :: rest =>
      match collectResults rest with
      | Except.ok vs => Except.ok (v :: vs)
      | Except.error e => Except.error e
  | Except.error e :: _ => Except.error e

/-- Execution of the worker pool under an explicit completion schedule: the
pool keeps one result slot per input position; the worker scheduled at step
`j` computes the job at input position `j` and stores its result in slot `j`.
Schedule entries outside the input range do nothing. -/
def runSchedule (f : Nat × Paper → Except PyError (Option PaperRecord))
    (jobs : List (Nat × Paper)) :
    List Nat → List (Except PyError (Option PaperRecord)) →
    List (Except PyError (Option PaperRecord))
  | [], slots => slots
  | j :: rest, slots =>
      runSchedule f jobs rest
        (match jobs[j]? with
         | some job => slots.set j (f job)
         | none => slots)

/-- All result slots after the pool has run a complete schedule, starting
from empty slots (one per input position). -/
def runScheduleAll (f : Nat × Paper → Except PyError (Option PaperRecord))
    (jobs : List (Nat × Paper)) (schedule : List Nat) :
    List (Except PyError (Option PaperRecord)) :=
  runSchedule f jobs schedule (jobs.map (fun _ => Except.ok none))

/-- Core of `process_articles` (modeling.py:206-227) from the loaded `papers`
array to the `papers` array written to the output artifact: map
`process_single_paper` over `enumerate(papers, start=1)`, consume the results
in input order (a worker exception propagates and nothing is written), and
drop the `None` results of skipped papers (modeling.py:219). -/
def process_articles (st : SentTokenizer) (cl : Classifier)
    (papers : List Paper) : Except PyError (List PaperRecord) :=
  match collectResults ((List.enumFrom 1 papers).map (process_single_paper st cl)) with
  | Except.ok results => Except.ok (results.filterMap id)
  | Except.error e => Except.error e

/-- The same aggregation with the worker pool run under an explicit
completion schedule. -/
def process_articles_sched (st : SentTokenizer) (cl : Classifier)
    (papers : List Paper) (schedule : List Nat) :
    Except PyError (List PaperRecord) :=
  match collectResults (runScheduleAll (process_single_paper st cl)
      (List.enumFrom 1 papers) schedule) with
  | Except.ok results => Except.ok (results.filterMap id)
  | Except.error e => Except.error e

/-- Outcome of one worker as seen after a successful collection: its record,
or `none` both for a skipped paper and (vacuously, since a collection
containing an error does not succeed) for a failed worker. -/
def okJoin (r : Except PyError (Option PaperRecord)) : Option PaperRecord :=
  match r with
  | Except.ok v => v
  | Except.error _ => none

/-- A sentence tokenizer producing no chunks, used for concrete instances. -/
def stubTok : SentTokenizer := fun _ => []

/-- A classifier scoring no labels on any chunk, used for concrete instances. -/
def stubCl : Classifier := fun _ _ => Except.ok []

/-- Concrete input paper A. -/
def pA : Paper := ⟨"A.pdf", "text a",
  [("mental health terms", [("PTSD", 2)]), ("epigenetic terms", []),
   ("socioeconomic terms", []), ("ethnographic terms", [])]⟩

/-- Concrete input paper B. -/
def pB : Paper := ⟨"B.pdf", "text b",
  [("mental health terms", []), ("epigenetic terms", [("BDNF", 1)]),
   ("socioeconomic terms", []), ("ethnographic terms", [])]⟩

/-- Concrete input paper C. -/
def pC : Paper := ⟨"C.pdf", "text c",
  [("mental health terms", []), ("epigenetic terms", []),
   ("socioeconomic terms", []), ("ethnographic terms", [("Arab person", 3)])]⟩

/-- Concrete malformed paper: non-empty `term_counts` missing the expected
key "mental health terms", so its worker raises `KeyError`. -/
def pBad : Paper := ⟨"bad.pdf", "text", [("epigenetic terms", [("BDNF", 1)])]⟩

/-- Concrete paper with whitespace-only text (skipped). -/
def pSkip : Paper := ⟨"skip.pdf", "   ",
  [("mental health terms", [("PTSD", 1)]), ("epigenetic terms", []),
   ("socioeconomic terms", []), ("ethnographic terms", [])]⟩

/-- Concrete paper with empty `term_counts` (skipped). -/
def pEmpty : Paper := ⟨"empty.pdf", "some text", []⟩

theorem alookup_append {α : Type} (l1 l2 : List (String × α)) (k : String) :
    alookup (l1 ++ l2) k =
      (match alookup l1 k with
       | some v => some v
       | none => alookup l2 k) := by
  induction l1 with
  | nil => simp [alookup]
  | cons p rest ih =>
      obtain ⟨k1, v⟩ := p
      by_cases h : k1 = k <;> simp [alookup, h, ih]

theorem ctrAdd_lookupD (m : List (String × Nat)) (k t : String) (c : Nat) :
    lookupD (ctrAdd m k c) t = lookupD m t + (if k = t then c else 0) := by
  induction m with
  | nil =>
      by_cases h : k = t <;> simp [ctrAdd, lookupD, alookup, h]
  | cons p rest ih =>
      obtain ⟨k1, v⟩ := p
      by_cases h1 : k1 = k
      · subst h1
        by_cases h2 : k1 = t <;> simp [ctrAdd, lookupD, alookup, h2]
      · by_cases h2 : k1 = t
        · subst h2
          have hk : ¬ k = k1 := fun h => h1 h.symm
          simp [ctrAdd, lookupD, alookup, h1, hk]
        · simpa [ctrAdd, lookupD, alookup, h1, h2] using ih

theorem alookup_ctrAdd_ne (m : List (String × Nat)) (k t : String) (c : Nat)
    (h : t ≠ k) : alookup (ctrAdd m k c) t = alookup m t := by
  have hkt : ¬ k = t := fun hh => h hh.symm
  induction m with
  | nil => simp [ctrAdd, alookup, hkt]
  | cons p rest ih =>
      obtain ⟨k1, v⟩ := p
      by_cases h1 : k1 = k
      · subst h1
        simp [ctrAdd, alookup, hkt]
      · by_cases h2 : k1 = t <;> simp [ctrAdd, alookup, h1, h2, h, ih]

theorem alookup_single {α : Type} (k t : String) (v : α) :
    alookup [(k, v)] t = if k = t then some v else none := by
  simp [alookup]

theorem lookupD2_bucketAdd (b : List (String × List (String × Nat)))
    (cat tm s t : String) (c : Nat) :
    lookupD2 (bucketAdd b cat tm c) s t
      = lookupD2 b s t + (if s = cat ∧ t = tm then c else 0) := by
  induction b with
  | nil =>
      by_cases hs : s = cat
      · subst hs
        by_cases ht : t = tm
        · subst ht
          simp [bucketAdd, lookupD2, lookupD, alookup]
        · have htm : ¬ tm = t := fun hh => ht hh.symm
          simp [bucketAdd, lookupD2, lookupD, alookup, htm, ht]
      · have hcs : ¬ cat = s := fun hh => hs hh.symm
        simp [bucketAdd, lookupD2, lookupD, alookup, hcs, hs]
  | cons p rest ih =>
      obtain ⟨cat1, m⟩ := p
      by_cases h1 : cat1 = cat
      · subst h1
        by_cases hs : cat1 = s
        · subst hs
          have hc := ctrAdd_lookupD m tm t c
          by_cases ht : t = tm
          · subst ht
            simp [bucketAdd, lookupD2, lookupD, alookup] at hc ⊢
            omega
          · have htm : ¬ tm = t := fun hh => ht hh.symm
            simp [bucketAdd, lookupD2, lookupD, alookup, htm, ht] at hc ⊢
            omega
        · have hsc : ¬ s = cat1 := fun hh => hs hh.symm
          simp [bucketAdd, lookupD2, alookup, hs, hsc]
      · by_cases hs : cat1 = s
        · subst hs
          have hsc : ¬ cat1 = cat := h1
          simp [bucketAdd, lookupD2, alookup, hsc, fun hh : cat1 = cat => h1 hh]
        · simp [bucketAdd, lookupD2, alookup, h1, hs] at ih ⊢
          exact ih

theorem mem_bucketAdd {b : List (String × List (String × Nat))}
    {cat tm s : String} {c : Nat} {m : List (String × Nat)}
    (h : (s, m) ∈ bucketAdd b cat tm c) :
    (s, m) ∈ b
      ∨ (s = cat ∧ (m = [(tm, c)] ∨ ∃ m0, (s, m0) ∈ b ∧ m = ctrAdd m0 tm c)) := by
  induction b with
  | nil =>
      rw [bucketAdd] at h
      rcases List.mem_singleton.mp h with he
      have hs : s = cat := congrArg Prod.fst he
      have hm : m = [(tm, c)] := congrArg Prod.snd he
      exact Or.inr ⟨hs, Or.inl hm⟩
  | cons p rest ih =>
      obtain ⟨cat1, m1⟩ := p
      by_cases h1 : cat1 = cat
      · subst h1
        rw [bucketAdd, if_pos rfl] at h
        rcases List.mem_cons.mp h with he | hrest
        · have hs : s = cat1 := congrArg Prod.fst he
          have hm : m = ctrAdd m1 tm c := congrArg Prod.snd he
          exact Or.inr ⟨hs, Or.inr ⟨m1, by rw [hs]; exact List.mem_cons_self _ _, hm⟩⟩
        · exact Or.inl (List.mem_cons_of_mem _ hrest)
      · rw [bucketAdd, if_neg h1] at h
        rcases List.mem_cons.mp h with he | hrest
        · exact Or.inl (List.mem_cons.mpr (Or.inl he))
        · rcases ih hrest with hin | hnew
          · exact Or.inl (List.mem_cons_of_mem _ hin)
          · refine Or.inr ⟨hnew.1, ?_⟩
            rcases hnew.2 with he2 | ⟨m0, hm0, he2⟩
            · exact Or.inl he2
            · exact Or.inr ⟨m0, List.mem_cons_of_mem _ hm0, he2⟩

theorem notInBucket_bucketAdd {b : List (String × List (String × Nat))}
    {cat tm t : String} {c : Nat} (hne : t ≠ tm) (h : NotInBucket b t) :
    NotInBucket (bucketAdd b cat tm c) t := by
  intro s m hm
  rcases mem_bucketAdd hm with hin | ⟨_, hnew⟩
  · exact h s m hin
  · have htm : ¬ tm = t := fun hh => hne hh.symm
    rcases hnew with he | ⟨m0, hm0, he⟩
    · subst he
      simp [alookup_single, htm]
    · subst he
      rw [alookup_ctrAdd_ne m0 tm t c hne]
      exact h s m0 hm0

theorem lookupD2_addInner (b : List (String × List (String × Nat)))
    (d : List (String × List String)) (tm s t : String) (c : Nat) :
    lookupD2 (addInner b d tm c) s t
      = lookupD2 b s t + c * innerWeight d tm s t := by
  induction d generalizing b with
  | nil => simp [addInner, innerWeight]
  | cons p rest ih =>
      obtain ⟨name, ts⟩ := p
      by_cases hmem : tm ∈ ts
      · rw [addInner, if_pos hmem, innerWeight, if_pos hmem,
          lookupD2_bucketAdd]
        by_cases hc : s = name ∧ t = tm <;> simp [hc]
      · rw [addInner, if_neg hmem, innerWeight, if_neg hmem]
        exact ih b

theorem lookupD2_addNested (b : List (String × List (String × Nat)))
    (cs : List (String × SubTerms)) (tm s t : String) (c : Nat) :
    lookupD2 (addNested b cs tm c) s t
      = lookupD2 b s t + c * nestedWeight cs tm s t := by
  induction cs generalizing b with
  | nil => simp [addNested, nestedWeight]
  | cons p rest ih =>
      obtain ⟨name, sub⟩ := p
      cases sub with
      | strList ts =>
          by_cases hmem : tm ∈ ts
          · rw [addNested, if_pos hmem, nestedWeight, if_pos hmem,
              lookupD2_bucketAdd]
            by_cases hc : s = name ∧ t = tm <;> simp [hc]
          · rw [addNested, if_neg hmem, nestedWeight, if_neg hmem]
            exact ih b
      | strDict d =>
          rw [addNested, nestedWeight, ih, lookupD2_addInner]
          ring

theorem lookupD2_catStep (b : List (String × List (String × Nat)))
    (cats : Categories) (tm s t : String) (c : Nat) :
    lookupD2 (catStep b cats tm c) s t
      = lookupD2 b s t + c * stepWeight cats tm s t := by
  cases cats with
  | dict cs => exact lookupD2_addNested b cs tm s t c
  | list ts =>
      by_cases hmem : tm ∈ ts
      · rw [catStep, if_pos hmem, stepWeight, if_pos hmem, lookupD2_bucketAdd]
        by_cases hc : s = "General" ∧ t = tm <;> simp [hc]
      · simp [catStep, stepWeight, hmem]

theorem lookupD2_catFold (cats : Categories) (tc : List (String × Nat))
    (b : List (String × List (String × Nat))) (s t : String) :
    lookupD2 (catFold cats tc b) s t
      = lookupD2 b s t + (tc.map (fun p => p.2 * stepWeight cats p.1 s t)).sum := by
  induction tc generalizing b with
  | nil => simp [catFold]
  | cons p rest ih =>
      rw [catFold, ih, lookupD2_catStep]
      simp
      ring

theorem lookupD2_nil (s t : String) : lookupD2 [] s t = 0 := rfl

theorem nestedWeight_firstMatch {cs : List (String × SubTerms)}
    (hAll : AllLists cs) (tm s t : String) :
    nestedWeight cs tm s t
      = (match firstMatch cs tm with
         | some s0 => if s = s0 ∧ t = tm then 1 else 0
         | none => 0) := by
  induction cs with
  | nil => simp [nestedWeight, firstMatch]
  | cons p rest ih =>
      obtain ⟨name, sub⟩ := p
      have hAllRest : AllLists rest := fun e he => hAll e (List.mem_cons_of_mem _ he)
      cases sub with
      | strList ts =>
          by_cases hmem : tm ∈ ts
          · rw [nestedWeight, if_pos hmem, firstMatch, if_pos hmem]
          · rw [nestedWeight, if_neg hmem, firstMatch, if_neg hmem]
            exact ih hAllRest
      | strDict d =>
          exact absurd (hAll (name, SubTerms.strDict d) (List.mem_cons_self _ _))
            (by simp [isStrList])

theorem addNested_firstMatch {cs : List (String × SubTerms)}
    (hAll : AllLists cs) (b : List (String × List (String × Nat)))
    (tm : String) (c : Nat) :
    addNested b cs tm c
      = (match firstMatch cs tm with
         | some s0 => bucketAdd b s0 tm c
         | none => b) := by
  induction cs generalizing b with
  | nil => simp [addNested, firstMatch]
  | cons p rest ih =>
      obtain ⟨name, sub⟩ := p
      have hAllRest : AllLists rest := fun e he => hAll e (List.mem_cons_of_mem _ he)
      cases sub with
      | strList ts =>
          by_cases hmem : tm ∈ ts
          · rw [addNested, if_pos hmem, firstMatch, if_pos hmem]
          · rw [addNested, if_neg hmem, firstMatch, if_neg hmem]
            exact ih hAllRest b
      | strDict d =>
          exact absurd (hAll (name, SubTerms.strDict d) (List.mem_cons_self _ _))
            (by simp [isStrList])

theorem notInBucket_addInner {b : List (String × List (String × Nat))}
    {d : List (String × List String)} {tm t : String} {c : Nat}
    (hne : t ≠ tm) (h : NotInBucket b t) :
    NotInBucket (addInner b d tm c) t := by
  induction d generalizing b with
  | nil => exact h
  | cons p rest ih =>
      obtain ⟨name, ts⟩ := p
      by_cases hmem : tm ∈ ts
      · rw [addInner, if_pos hmem]
        exact notInBucket_bucketAdd hne h
      · rw [addInner, if_neg hmem]
        exact ih h

theorem notInBucket_addNested {b : List (String × List (String × Nat))}
    {cs : List (String × SubTerms)} {tm t : String} {c : Nat}
    (hne : t ≠ tm) (h : NotInBucket b t) :
    NotInBucket (addNested b cs tm c) t := by
  induction cs generalizing b with
  | nil => exact h
  | cons p rest ih =>
      obtain ⟨name, sub⟩ := p
      cases sub with
      | strList ts =>
          by_cases hmem : tm ∈ ts
          · rw [addNested, if_pos hmem]
            exact notInBucket_bucketAdd hne h
          · rw [addNested, if_neg hmem]
            exact ih h
      | strDict d =>
          rw [addNested]
          exact ih (notInBucket_addInner hne h)

theorem notInBucket_catStep {b : List (String × List (String × Nat))}
    {cats : Categories} {tm t : String} {c : Nat}
    (hne : t ≠ tm) (h : NotInBucket b t) :
    NotInBucket (catStep b cats tm c) t := by
  cases cats with
  | dict cs => exact notInBucket_addNested hne h
  | list ts =>
      by_cases hmem : tm ∈ ts
      · rw [catStep, if_pos hmem]
        exact notInBucket_bucketAdd hne h
      · rw [catStep, if_neg hmem]
        exact h

theorem sum_ifkey_of_not_mem {tc : List (String × Nat)} {t : String}
    (h : t ∉ tc.map Prod.fst) :
    (tc.map (fun p => if p.1 = t then p.2 else 0)).sum = 0 := by
  induction tc with
  | nil => simp
  | cons p rest ih =>
      have h1 : p.1 ≠ t := by
        intro he
        exact h (by simp [he])
      have h2 : t ∉ rest.map Prod.fst := fun hm => h (by simp [hm])
      simp [h1, ih h2]

theorem sum_ifkey_nodup {tc : List (String × Nat)} {t : String}
    (h : (tc.map Prod.fst).Nodup) :
    (tc.map (fun p => if p.1 = t then p.2 else 0)).sum = lookupD tc t := by
  induction tc with
  | nil => simp [lookupD, alookup]
  | cons p rest ih =>
      have htail : (rest.map Prod.fst).Nodup := (List.nodup_cons.mp (by simpa using h)).2
      have hhead : p.1 ∉ rest.map Prod.fst := (List.nodup_cons.mp (by simpa using h)).1
      by_cases h1 : p.1 = t
      · subst h1
        simp [lookupD, alookup, sum_ifkey_of_not_mem hhead]
      · have h1s : ¬ p.1 = t := h1
        simp [lookupD, alookup, h1s, ih htail]

theorem isSome_alookup_single {c : Nat} {tm t : String}
    (h : (alookup [(tm, c)] t).isSome) : tm = t := by
  by_cases he : tm = t
  · exact he
  · rw [alookup_single, if_neg he] at h
    simp at h

theorem flat_names {ts : List String} (tc : List (String × Nat))
    (acc : List (String × List (String × Nat)))
    (hacc : ∀ s m, (s, m) ∈ acc → s = "General") :
    ∀ s m, (s, m) ∈ catFold (Categories.list ts) tc acc → s = "General" := by
  induction tc generalizing acc with
  | nil => exact hacc
  | cons p rest ih =>
      rw [catFold]
      refine ih _ ?_
      intro s m hm
      rw [catStep] at hm
      by_cases hmem : p.1 ∈ ts
      · rw [if_pos hmem] at hm
        rcases mem_bucketAdd hm with hin | ⟨hs, _⟩
        · exact hacc s m hin
        · exact hs
      · rw [if_neg hmem] at hm
        exact hacc s m hm

theorem flat_notIn {ts : List String} {t : String} (hts : t ∉ ts)
    (tc : List (String × Nat)) (acc : List (String × List (String × Nat)))
    (hacc : NotInBucket acc t) :
    NotInBucket (catFold (Categories.list ts) tc acc) t := by
  induction tc generalizing acc with
  | nil => exact hacc
  | cons p rest ih =>
      rw [catFold]
      refine ih _ ?_
      by_cases hp : p.1 = t
      · rw [catStep, hp, if_neg hts]
        exact hacc
      · exact notInBucket_catStep (fun hh => hp hh.symm) hacc

theorem nested_inv {cs : List (String × SubTerms)} {t : String}
    (hAll : AllLists cs) (tc : List (String × Nat))
    (acc : List (String × List (String × Nat)))
    (hacc : ∀ s m, (s, m) ∈ acc → (alookup m t).isSome → firstMatch cs t = some s) :
    ∀ s m, (s, m) ∈ catFold (Categories.dict cs) tc acc →
      (alookup m t).isSome → firstMatch cs t = some s := by
  induction tc generalizing acc with
  | nil => exact hacc
  | cons p rest ih =>
      rw [catFold]
      refine ih _ ?_
      intro s m hm hsome
      rw [catStep, addNested_firstMatch hAll] at hm
      rcases hfm : firstMatch cs p.1 with _ | s0
      · rw [hfm] at hm
        exact hacc s m hm hsome
      · rw [hfm] at hm
        rcases mem_bucketAdd hm with hin | ⟨hs, hnew⟩
        · exact hacc s m hin hsome
        · rcases hnew with he | ⟨m0, hm0, he⟩
          · subst he
            have := isSome_alookup_single hsome
            subst this
            rw [hfm, hs]
          · subst he
            by_cases htp : t = p.1
            · subst htp
              rw [hfm, hs]
            · rw [alookup_ctrAdd_ne m0 p.1 t p.2 htp] at hsome
              exact hacc s m0 hm0 hsome

/-- The claim C1 as stated fails on the code: `categorize_terms` inspects the
key "mental health terms" of its `term_counts` argument (modeling.py:106) and
raises `TypeError` whenever that key is present (its value is then a count,
not a dict), instead of silently dropping this taxonomy-foreign term.  For
counts `{"mental health terms": 5}` and flat taxonomy `["PTSD", "anxiety"]`
the call errors rather than returning `{}`. -/
theorem categorize_terms_flat_typeerror_cex :
    categorize_terms [("mental health terms", 5)]
        (Categories.list ["PTSD", "anxiety"])
      = Except.error (PyError.typeError "Expected term_counts to be a dictionary.") := rfl

/-- Claim C1 (amended): for every term-count mapping that does not contain
the reserved key "mental health terms" (the input-shape guard at
modeling.py:106 raises `TypeError` when it is present), `categorize_terms`
with a flat taxonomy succeeds; every bucket of the result is named "General";
the count of each taxonomy term in `["General"]` equals its input count
(0 when absent); and every term not in the taxonomy appears nowhere in the
result.  In particular the concrete example of the claim holds (see the
witness). -/
theorem categorize_terms_flat_spec (tc : List (String × Nat)) (ts : List String)
    (hk : alookup tc "mental health terms" = none)
    (hnd : (tc.map Prod.fst).Nodup) :
    ∃ b, categorize_terms tc (Categories.list ts) = Except.ok b
      ∧ (∀ s m, (s, m) ∈ b → s = "General")
      ∧ (∀ t, t ∈ ts → lookupD2 b "General" t = lookupD tc t)
      ∧ (∀ t, t ∉ ts → NotInBucket b t) := by
  refine ⟨catFold (Categories.list ts) tc [], ?_, ?_, ?_, ?_⟩
  · rw [categorize_terms, hk]
  · exact flat_names tc [] (by intro s m hm; simp at hm)
  · intro t ht
    rw [lookupD2_catFold, lookupD2_nil]
    have hcong : tc.map (fun p => p.2 * stepWeight (Categories.list ts) p.1 "General" t)
        = tc.map (fun p => if p.1 = t then p.2 else 0) := by
      refine List.map_congr_left ?_
      intro p _
      by_cases hp : p.1 = t
      · rw [hp, if_pos rfl]
        simp [stepWeight, ht]
      · have hpt : ¬ t = p.1 := fun hh => hp hh.symm
        rw [if_neg hp]
        by_cases hmem : p.1 ∈ ts <;> simp [stepWeight, hmem, hpt]
    rw [hcong, sum_ifkey_nodup hnd]
    simp
  · intro t ht
    exact flat_notIn ht tc [] (by intro s m hm; simp at hm)

/-- Witness for C1 at the concrete example of the claim: taxonomy
`["PTSD", "anxiety"]`, counts `{"PTSD": 2, "anxiety": 1, "unknown": 5}`;
the amended theorem applies and the result is exactly
`{"General": {"PTSD": 2, "anxiety": 1}}` with "unknown" dropped. -/
theorem categorize_terms_flat_spec_witness :
    (∃ b, categorize_terms [("PTSD", 2), ("anxiety", 1), ("unknown", 5)]
          (Categories.list ["PTSD", "anxiety"]) = Except.ok b
        ∧ (∀ s m, (s, m) ∈ b → s = "General")
        ∧ (∀ t, t ∈ ["PTSD", "anxiety"] →
            lookupD2 b "General" t
              = lookupD [("PTSD", 2), ("anxiety", 1), ("unknown", 5)] t)
        ∧ (∀ t, t ∉ ["PTSD", "anxiety"] → NotInBucket b t))
      ∧ categorize_terms [("PTSD", 2), ("anxiety", 1), ("unknown", 5)]
          (Categories.list ["PTSD", "anxiety"])
        = Except.ok [("General", [("PTSD", 2), ("anxiety", 1)])] :=
  ⟨categorize_terms_flat_spec [("PTSD", 2), ("anxiety", 1), ("unknown", 5)]
      ["PTSD", "anxiety"] rfl (by decide), rfl⟩

theorem alookup_map_snd {α β : Type} (l : List (String × α)) (g : α → β)
    (k : String) :
    alookup (l.map (fun p => (p.1, g p.2))) k = (alookup l k).map g := by
  induction l with
  | nil => simp [alookup]
  | cons p rest ih =>
      by_cases h : p.1 = k <;> simp [alookup, h, ih]

/-- The claim C2 as stated fails on the code for the same reason as C1: a
term-count mapping containing the key "mental health terms" trips the
input-shape guard at modeling.py:106 and `categorize_terms` raises
`TypeError` instead of classifying, here shown on the nested ethnographic
taxonomy. -/
theorem categorize_terms_nested_typeerror_cex :
    categorize_terms [("mental health terms", 1)] ethnographic_categories
      = Except.error (PyError.typeError "Expected term_counts to be a dictionary.") := rfl

/-- Claim C2 (amended): for every term-count mapping that does not contain
the reserved key "mental health terms" (the guard at modeling.py:106 raises
`TypeError` when it is present) and every nested taxonomy mapping
subcategory names to term lists, `categorize_terms` succeeds; the count of a
term in the first subcategory (in the taxonomy's insertion order) whose list
contains it equals its input count; and a term appears in a bucket only if
that bucket is its first matching subcategory — in particular a term
contained in no subcategory appears nowhere in the result. -/
theorem categorize_terms_nested_spec (tc : List (String × Nat))
    (cs : List (String × SubTerms))
    (hk : alookup tc "mental health terms" = none)
    (hnd : (tc.map Prod.fst).Nodup) (hAll : AllLists cs) :
    ∃ b, categorize_terms tc (Categories.dict cs) = Except.ok b
      ∧ (∀ t s, firstMatch cs t = some s → lookupD2 b s t = lookupD tc t)
      ∧ (∀ t s m, (s, m) ∈ b → (alookup m t).isSome → firstMatch cs t = some s) := by
  refine ⟨catFold (Categories.dict cs) tc [], ?_, ?_, ?_⟩
  · rw [categorize_terms, hk]
  · intro t s hfm
    rw [lookupD2_catFold, lookupD2_nil]
    have hcong : tc.map (fun p => p.2 * stepWeight (Categories.dict cs) p.1 s t)
        = tc.map (fun p => if p.1 = t then p.2 else 0) := by
      refine List.map_congr_left ?_
      intro p _
      by_cases hp : p.1 = t
      · rw [hp, if_pos rfl]
        simp [stepWeight, nestedWeight_firstMatch hAll, hfm]
      · have hpt : ¬ t = p.1 := fun hh => hp hh.symm
        rw [if_neg hp]
        rcases hfm2 : firstMatch cs p.1 with _ | s1 <;>
          simp [stepWeight, nestedWeight_firstMatch hAll, hfm2, hpt]
    rw [hcong, sum_ifkey_nodup hnd]
    simp
  · intro t s m hm hsome
    exact nested_inv hAll tc [] (by intro s m hm; simp at hm) s m hm hsome

theorem allLists_map_strList (l : List (String × List String)) :
    AllLists (l.map (fun p => (p.1, SubTerms.strList p.2))) := by
  intro e he
  rcases List.mem_map.mp he with ⟨p, _, hp⟩
  rw [← hp]
  rfl

/-- Witness for C2 on the ethnographic taxonomy: counts
`{"African person": 2, "Muslim person": 1, "plumber": 7}` classify to
`{"African descent": {"African person": 2}, "Arab descent": {"Muslim person": 1}}`
with "plumber" dropped. -/
theorem categorize_terms_nested_spec_witness :
    (∃ b, categorize_terms
          [("African person", 2), ("Muslim person", 1), ("plumber", 7)]
          (Categories.dict (ethnographic_terms.map
            (fun p => (p.1, SubTerms.strList p.2)))) = Except.ok b
        ∧ (∀ t s, firstMatch (ethnographic_terms.map
              (fun p => (p.1, SubTerms.strList p.2))) t = some s →
            lookupD2 b s t
              = lookupD [("African person", 2), ("Muslim person", 1), ("plumber", 7)] t)
        ∧ (∀ t s m, (s, m) ∈ b → (alookup m t).isSome →
            firstMatch (ethnographic_terms.map
              (fun p => (p.1, SubTerms.strList p.2))) t = some s))
      ∧ categorize_terms
          [("African person", 2), ("Muslim person", 1), ("plumber", 7)]
          ethnographic_categories
        = Except.ok [("African descent", [("African person", 2)]),
                     ("Arab descent", [("Muslim person", 1)])] :=
  ⟨categorize_terms_nested_spec
      [("African person", 2), ("Muslim person", 1), ("plumber", 7)]
      (ethnographic_terms.map (fun p => (p.1, SubTerms.strList p.2)))
      rfl (by decide) (allLists_map_strList ethnographic_terms), rfl⟩

/-- The claim C10 as stated fails on the code: at a term-count mapping
containing the key "mental health terms" the guard at modeling.py:106 raises
`TypeError`, so there is no classification result to sum with itself and
the claimed equation has no instance at this input. -/
theorem categorize_terms_linear_typeerror_cex :
    categorize_terms [("mental health terms", 2)]
        (Categories.list mental_health_terms)
      = Except.error (PyError.typeError "Expected term_counts to be a dictionary.")
    ∧ ¬ ∃ b, categorize_terms [("mental health terms", 2)]
        (Categories.list mental_health_terms) = Except.ok b :=
  ⟨rfl, fun ⟨_, hb⟩ => Except.noConfusion hb⟩

/-- Claim C10 (amended): for every term-count mapping without the reserved
key "mental health terms" (which would trip the guard at modeling.py:106)
and every taxonomy, flat or nested, classification is linear in the counts:
both the original and the doubled mapping classify successfully and the
bucket-wise sum of the result with itself equals, at every subcategory and
term, the result of classifying the doubled counts. -/
theorem categorize_terms_linear (tc : List (String × Nat)) (cats : Categories)
    (hk : alookup tc "mental health terms" = none) :
    ∃ b b2, categorize_terms tc cats = Except.ok b
      ∧ categorize_terms (doubleCounts tc) cats = Except.ok b2
      ∧ ∀ s t, lookupD2 b s t + lookupD2 b s t = lookupD2 b2 s t := by
  have hk2 : alookup (doubleCounts tc) "mental health terms" = none := by
    rw [doubleCounts, alookup_map_snd, hk]
    rfl
  refine ⟨catFold cats tc [], catFold cats (doubleCounts tc) [], ?_, ?_, ?_⟩
  · rw [categorize_terms, hk]
  · rw [categorize_terms, hk2]
  · intro s t
    rw [lookupD2_catFold, lookupD2_catFold, lookupD2_nil]
    have hsum : ((doubleCounts tc).map (fun p => p.2 * stepWeight cats p.1 s t)).sum
        = 2 * ((tc.map (fun p => p.2 * stepWeight cats p.1 s t)).sum) := by
      rw [doubleCounts, List.map_map]
      have hfun : ((fun p : String × Nat => p.2 * stepWeight cats p.1 s t)
            ∘ (fun p : String × Nat => (p.1, 2 * p.2)))
          = fun p : String × Nat => 2 * (p.2 * stepWeight cats p.1 s t) := by
        funext p
        simp [Function.comp]
        ring
      rw [hfun, List.sum_map_mul_left]
    omega

/-- Witness for C10 on the mental-health taxonomy with counts
`{"PTSD": 1, "depression": 2, "plumber": 9}`. -/
theorem categorize_terms_linear_witness :
    ∃ b b2, categorize_terms [("PTSD", 1), ("depression", 2), ("plumber", 9)]
        (Categories.list mental_health_terms) = Except.ok b
      ∧ categorize_terms
          (doubleCounts [("PTSD", 1), ("depression", 2), ("plumber", 9)])
          (Categories.list mental_health_terms) = Except.ok b2
      ∧ ∀ s t, lookupD2 b s t + lookupD2 b s t = lookupD2 b2 s t :=
  categorize_terms_linear [("PTSD", 1), ("depression", 2), ("plumber", 9)]
    (Categories.list mental_health_terms) rfl

theorem alookup_filterMap_of_not_mem {α β : Type}
    {f : (String × α) → Option (String × β)}
    (hf : ∀ p q, f p = some q → q.1 = p.1) {l : List (String × α)} {k : String}
    (h : k ∉ l.map Prod.fst) : alookup (l.filterMap f) k = none := by
  induction l with
  | nil => simp [alookup]
  | cons p rest ih =>
      have hpk : p.1 ≠ k := fun he => h (by simp [he])
      have hrest : k ∉ rest.map Prod.fst := fun hm => h (by simp [hm])
      rw [List.filterMap_cons]
      rcases hq : f p with _ | q
      · exact ih hrest
      · obtain ⟨qk, qv⟩ := q
        have hqk : qk = p.1 := hf p (qk, qv) hq
        rw [alookup, if_neg (hqk ▸ hpk)]
        exact ih hrest

theorem alookup_filterMap_nodup {α β : Type}
    {f : (String × α) → Option (String × β)}
    (hf : ∀ p q, f p = some q → q.1 = p.1) {l : List (String × α)}
    (hnd : (l.map Prod.fst).Nodup) (k : String) :
    alookup (l.filterMap f) k
      = (alookup l k).bind (fun v => (f (k, v)).map Prod.snd) := by
  induction l with
  | nil => simp [alookup]
  | cons p rest ih =>
      obtain ⟨pk, pv⟩ := p
      have hhead : pk ∉ rest.map Prod.fst :=
        (List.nodup_cons.mp (by simpa using hnd)).1
      have htail : (rest.map Prod.fst).Nodup :=
        (List.nodup_cons.mp (by simpa using hnd)).2
      rw [List.filterMap_cons]
      by_cases hk : pk = k
      · subst hk
        rcases hq : f (pk, pv) with _ | q
        · simp [alookup, hq, alookup_filterMap_of_not_mem hf hhead]
        · obtain ⟨qk, qv⟩ := q
          have hqk : qk = pk := hf (pk, pv) (qk, qv) hq
          subst hqk
          simp [alookup, hq]
      · rcases hq : f (pk, pv) with _ | q
        · simp only [alookup, if_neg hk]
          exact ih htail
        · obtain ⟨qk, qv⟩ := q
          have hqk : qk = pk := hf (pk, pv) (qk, qv) hq
          subst hqk
          simp only [alookup, if_neg hk]
          exact ih htail

theorem counterAdd_lookupD (a b : List (String × Nat)) (t : String)
    (ha : (a.map Prod.fst).Nodup) (hb : (b.map Prod.fst).Nodup) :
    lookupD (counterAdd a b) t = lookupD a t + lookupD b t := by
  have hf1 : ∀ (p q : String × Nat),
      (if 0 < p.2 + lookupD b p.1 then some (p.1, p.2 + lookupD b p.1) else none)
        = some q → q.1 = p.1 := by
    intro p q hq
    by_cases hc : 0 < p.2 + lookupD b p.1
    · rw [if_pos hc] at hq
      cases hq
      rfl
    · rw [if_neg hc] at hq
      cases hq
  have hf2 : ∀ (p q : String × Nat),
      (if (alookup a p.1).isNone ∧ 0 < p.2 then some p else none)
        = some q → q.1 = p.1 := by
    intro p q hq
    by_cases hc : (alookup a p.1).isNone ∧ 0 < p.2
    · rw [if_pos hc] at hq
      cases hq
      rfl
    · rw [if_neg hc] at hq
      cases hq
  rw [counterAdd, lookupD, alookup_append,
    alookup_filterMap_nodup hf1 ha t, alookup_filterMap_nodup hf2 hb t]
  rcases hat : alookup a t with _ | v <;> rcases hbt : alookup b t with _ | w
  · simp [lookupD, hat, hbt]
  · by_cases hw : 0 < w
    · simp [lookupD, hat, hbt, hw]
    · simp [lookupD, hat, hbt, hw]
      omega
  · by_cases hv : 0 < v
    · simp [lookupD, hat, hbt, hv]
    · simp [lookupD, hat, hbt, hv]
      omega
  · by_cases hd : 0 < v ∨ 0 < w
    · simp [lookupD, hat, hbt, hd]
    · simp [lookupD, hat, hbt, hd]
      omega

/-- Claim C5: the merge step of the document processor (modeling.py:191-192)
is additive.  For every raw category present in `term_counts` and every label
`L`, the merged count of `L` in that category equals the prior raw count of
`L` (0 when absent) plus the oracle count of `L` (0 when absent); counts are
never overwritten. -/
theorem merge_additional_additive (tc : List (String × List (String × Nat)))
    (add : PyCounter) (cat : String) (raw : List (String × Nat)) (L : String)
    (hcat : alookup tc cat = some raw)
    (hraw : (raw.map Prod.fst).Nodup) (hadd : (add.map Prod.fst).Nodup) :
    ∃ m, alookup (merge_additional tc add) cat = some m
      ∧ lookupD m L = lookupD raw L + lookupD add L := by
  refine ⟨counterAdd raw add, ?_, counterAdd_lookupD raw add L hraw hadd⟩
  rw [merge_additional]
  exact (alookup_map_snd tc (fun m => counterAdd m add) cat).trans
    (by rw [hcat]; rfl)

/-- Witness for C5: raw counts `{"PTSD": 2, "anxiety": 0}` in category
"mental health terms" merged with oracle counts
`{"PTSD": 3, "depression": 1}` give `{"PTSD": 5, "depression": 1}`, and the
merged count of "PTSD" is 2 + 3. -/
theorem merge_additional_additive_witness :
    (∃ m, alookup (merge_additional
          [("mental health terms", [("PTSD", 2), ("anxiety", 0)])]
          [("PTSD", 3), ("depression", 1)]) "mental health terms" = some m
        ∧ lookupD m "PTSD" = lookupD [("PTSD", 2), ("anxiety", 0)] "PTSD"
            + lookupD [("PTSD", 3), ("depression", 1)] "PTSD")
      ∧ merge_additional [("mental health terms", [("PTSD", 2), ("anxiety", 0)])]
          [("PTSD", 3), ("depression", 1)]
        = [("mental health terms", [("PTSD", 5), ("depression", 1)])] :=
  ⟨merge_additional_additive
      [("mental health terms", [("PTSD", 2), ("anxiety", 0)])]
      [("PTSD", 3), ("depression", 1)] "mental health terms"
      [("PTSD", 2), ("anxiety", 0)] "PTSD" rfl (by decide) (by decide), rfl⟩

theorem chunkContribution_lookupD (entries : List (String × ℚ))
    (acc : PyCounter) (L : String) :
    lookupD (chunkContribution entries acc) L
      = lookupD acc L + qualCount entries L := by
  induction entries generalizing acc with
  | nil => simp [chunkContribution, qualCount]
  | cons ls rest ih =>
      rw [chunkContribution, qualCount]
      by_cases hs : confidence_threshold < ls.2
      · rw [if_pos hs, ih, counterInc, ctrAdd_lookupD]
        by_cases hl : ls.1 = L
        · simp [hs, hl]
          omega
        · simp [hs, hl]
      · rw [if_neg hs, ih]
        simp [hs]

theorem analyzeChunks_lookupD (cl : Classifier) (labels : List String)
    (chunks : List String) (acc : PyCounter) (L : String) :
    lookupD (analyzeChunks cl labels chunks acc) L
      = lookupD acc L
        + (chunks.map (fun chunk => chunkLabelCount cl labels chunk L)).sum := by
  induction chunks generalizing acc with
  | nil => simp [analyzeChunks]
  | cons chunk rest ih =>
      rw [analyzeChunks]
      rcases hr : cl chunk labels with e | result
      · rw [ih]
        simp [chunkLabelCount, hr]
      · rw [ih, chunkContribution_lookupD]
        simp [chunkLabelCount, hr]
        omega

/-- Claim C7: per-chunk oracle failure isolation in
`analyze_text_with_huggingface` (modeling.py:148-161).  For every tokenizer,
classifier, text and label, the count of the label in the returned counter is
the sum over the text's chunks of the per-chunk contribution: the number of
`(label, score)` entries with that label and score above 0.3 for a chunk
whose classifier call succeeds, and 0 for a chunk whose classifier call
raises — so failing chunks are skipped and never abort the document, and
every qualifying pair of every non-failing chunk is counted. -/
theorem analyze_text_failure_isolation (st : SentTokenizer) (cl : Classifier)
    (cleaned_text : String) (L : String) :
    lookupD (analyze_text_with_huggingface st cl cleaned_text) L
      = ((st cleaned_text).map
          (fun chunk => chunkLabelCount cl oracleLabels chunk L)).sum := by
  rw [analyze_text_with_huggingface, analyzeChunks_lookupD]
  simp [lookupD, alookup]

/-- The claim C6 as stated fails on the code: the candidate label vocabulary
built at modeling.py:140 uses `list(ethnographic_terms.keys())`, i.e. the
ethnographic subcategory names, not the ethnographic terms.  The term
"African person" belongs to the subcategory "African descent" in the
taxonomy, yet it is not in the vocabulary, while the subcategory name itself
is. -/
theorem oracle_vocabulary_cex :
    "African person" ∈ (alookup ethnographic_terms "African descent").getD []
      ∧ "African person" ∉ oracleLabels
      ∧ "African descent" ∈ oracleLabels := by
  refine ⟨?_, ?_, ?_⟩ <;> decide

/-- Claim C6 (amended): `analyze_text_with_huggingface` invokes the
classifier on every chunk with the candidate label vocabulary equal to the
concatenation of the mental-health terms, the epigenetic terms, the
ethnographic subcategory NAMES (the keys of `ethnographic_terms`, not its
terms) and the socioeconomic terms — explicitly, the 22 labels below. -/
theorem oracle_vocabulary (st : SentTokenizer) (cl : Classifier)
    (cleaned_text : String) :
    analyze_text_with_huggingface st cl cleaned_text
        = analyzeChunks cl oracleLabels (st cleaned_text) []
      ∧ oracleLabels
        = mental_health_terms ++ epigenetic_terms
            ++ ethnographic_terms.map Prod.fst ++ socioeconomic_terms
      ∧ oracleLabels
        = ["depression", "bipolar", "PTSD", "anxiety", "suicide",
           "generational trauma", "DNA methylation", "BDNF", "SLC6A4",
           "FKBP5", "OXTR", "stress response", "HPA axis dysregulation",
           "African descent", "Latino/Hispanic descent", "Asian descent",
           "Native American descent", "Arab descent", "European descent",
           "low-income", "middle-income", "high-income"] :=
  ⟨rfl, rfl, rfl⟩

/-- Claim C8: the input-shape guard of `categorize_terms`
(modeling.py:105-107) does reject non-mapping inputs, but not with the
`TypeError` the claim states: under Python semantics evaluating
`term_counts.get(...)` on a list or a string raises `AttributeError` (those
types have no `get` attribute) before the `isinstance` test can run, and the
`TypeError` branch is instead reachable exactly for dict inputs whose
"mental health terms" value is not a dict. -/
theorem entry_check_behavior :
    errClass (categorize_terms_entry_check (PyVal.pyList [PyVal.str "PTSD"]))
        = "AttributeError"
      ∧ errClass (categorize_terms_entry_check (PyVal.str "PTSD"))
        = "AttributeError"
      ∧ (∀ msg, categorize_terms_entry_check (PyVal.pyList [PyVal.str "PTSD"])
          ≠ Except.error (PyError.typeError msg))
      ∧ errClass (categorize_terms_entry_check
          (PyVal.dict [("mental health terms", PyVal.int 5)])) = "TypeError" := by
  refine ⟨rfl, rfl, ?_, rfl⟩
  intro msg h
  rw [show categorize_terms_entry_check (PyVal.pyList [PyVal.str "PTSD"])
      = Except.error (PyError.attributeError "list object has no attribute get")
    from rfl] at h
  exact PyError.noConfusion (Except.error.inj h)

theorem collectResults_ok {slots : List (Except PyError (Option PaperRecord))}
    {vs : List (Option PaperRecord)} (h : collectResults slots = Except.ok vs) :
    slots = vs.map Except.ok := by
  induction slots generalizing vs with
  | nil =>
      rw [collectResults] at h
      cases h
      rfl
  | cons r rest ih =>
      rcases r with e | v
      · rw [collectResults] at h
        cases h
      · rw [collectResults] at h
        rcases hr : collectResults rest with e2 | vs2
        · rw [hr] at h
          cases h
        · rw [hr] at h
          cases h
          simp [ih hr]

theorem collectResults_error_of_mem {slots : List (Except PyError (Option PaperRecord))}
    {e : PyError} (h : Except.error e ∈ slots) :
    ∃ e2, collectResults slots = Except.error e2 := by
  induction slots with
  | nil => cases h
  | cons r rest ih =>
      rcases r with e1 | v
      · exact ⟨e1, by rw [collectResults]⟩
      · rcases List.mem_cons.mp h with he | hrest
        · exact Except.noConfusion he
        · rcases ih hrest with ⟨e2, h2⟩
          exact ⟨e2, by rw [collectResults, h2]⟩

theorem filterMap_id_of_map_ok (f : Nat × Paper → Except PyError (Option PaperRecord)) :
    ∀ (jobs : List (Nat × Paper)) (vs : List (Option PaperRecord)),
      jobs.map f = vs.map Except.ok →
      vs.filterMap id = jobs.filterMap (fun ip => okJoin (f ip)) := by
  intro jobs
  induction jobs with
  | nil =>
      intro vs h
      rcases vs with _ | ⟨v, vs2⟩
      · rfl
      · cases h
  | cons ip rest ih =>
      intro vs h
      rcases vs with _ | ⟨v, vs2⟩
      · cases h
      · rw [List.map_cons, List.map_cons] at h
        have h1 : f ip = Except.ok v := (List.cons.injEq _ _ _ _ ▸ h).1
        have h2 : rest.map f = vs2.map Except.ok := (List.cons.injEq _ _ _ _ ▸ h).2
        rw [List.filterMap_cons, List.filterMap_cons, ih vs2 h2, h1]
        rcases v with _ | r <;> rfl

theorem process_articles_ok {st : SentTokenizer} {cl : Classifier}
    {papers : List Paper} {out : List PaperRecord}
    (h : process_articles st cl papers = Except.ok out) :
    out = (List.enumFrom 1 papers).filterMap
      (fun ip => okJoin (process_single_paper st cl ip)) := by
  rw [process_articles] at h
  rcases hc : collectResults ((List.enumFrom 1 papers).map (process_single_paper st cl))
    with e | results
  · rw [hc] at h
    cases h
  · rw [hc] at h
    cases h
    exact filterMap_id_of_map_ok (process_single_paper st cl)
      (List.enumFrom 1 papers) results (collectResults_ok hc)

theorem runSchedule_length (f : Nat × Paper → Except PyError (Option PaperRecord))
    (jobs : List (Nat × Paper)) :
    ∀ (sched : List Nat) (slots : List (Except PyError (Option PaperRecord))),
      (runSchedule f jobs sched slots).length = slots.length := by
  intro sched
  induction sched with
  | nil => intro slots; rfl
  | cons j rest ih =>
      intro slots
      rw [runSchedule]
      rcases hj : jobs[j]? with _ | job
      · exact ih slots
      · rw [ih (slots.set j (f job))]
        exact List.length_set slots j (f job)

theorem runSchedule_getElem? (f : Nat × Paper → Except PyError (Option PaperRecord))
    (jobs : List (Nat × Paper)) :
    ∀ (sched : List Nat) (slots : List (Except PyError (Option PaperRecord))),
      slots.length = jobs.length → ∀ i,
      (runSchedule f jobs sched slots)[i]?
        = match (if i ∈ sched then jobs[i]? else none) with
          | some job => some (f job)
          | none => slots[i]? := by
  intro sched
  induction sched with
  | nil =>
      intro slots hlen i
      simp [runSchedule]
  | cons j rest ih =>
      intro slots hlen i
      rw [runSchedule]
      have hlen2 : (match jobs[j]? with
          | some job => slots.set j (f job)
          | none => slots).length = jobs.length := by
        rcases hj : jobs[j]? with _ | job
        · exact hlen
        · rw [List.length_set]
          exact hlen
      rw [ih _ hlen2 i]
      by_cases hir : i ∈ rest
      · have hic : i ∈ j :: rest := List.mem_cons_of_mem _ hir
        rw [if_pos hir, if_pos hic]
        rcases hji : jobs[i]? with _ | jobi
        · rcases hj : jobs[j]? with _ | job
          · rfl
          · by_cases hij : j = i
            · subst hij
              rw [hj] at hji
              cases hji
            · rw [List.getElem?_set]
              simp [hij]
        · rfl
      · rw [if_neg hir]
        by_cases hij : i = j
        · subst hij
          have hic : i ∈ i :: rest := List.mem_cons_self _ _
          rw [if_pos hic]
          rcases hj : jobs[i]? with _ | job
          · rfl
          · have hilt : i < slots.length := by
              rw [hlen]
              exact (List.getElem?_eq_some.mp hj).1
            rw [List.getElem?_set]
            simp [hilt]
        · have hic : i ∉ j :: rest := by
            intro hmem
            rcases List.mem_cons.mp hmem with he | hm
            · exact hij he
            · exact hir hm
          rw [if_neg hic]
          rcases hj : jobs[j]? with _ | job
          · rfl
          · have hji : ¬ j = i := fun he => hij he.symm
            rw [List.getElem?_set]
            simp [hji]

theorem runScheduleAll_perm (f : Nat × Paper → Except PyError (Option PaperRecord))
    (jobs : List (Nat × Paper)) (schedule : List Nat)
    (hperm : schedule.Perm (List.range jobs.length)) :
    runScheduleAll f jobs schedule = jobs.map f := by
  apply List.ext_getElem?
  intro i
  rw [runScheduleAll, runSchedule_getElem? f jobs schedule _ (by simp) i]
  by_cases hi : i < jobs.length
  · have hmem : i ∈ schedule := hperm.mem_iff.mpr (List.mem_range.mpr hi)
    rw [if_pos hmem, List.getElem?_eq_getElem hi]
    simp [List.getElem?_map, List.getElem?_eq_getElem hi]
  · have hmem : i ∉ schedule := by
      intro hm
      exact hi (List.mem_range.mp (hperm.mem_iff.mp hm))
    rw [if_neg hmem]
    have hnone : jobs[i]? = none := List.getElem?_eq_none (Nat.le_of_not_lt hi)
    rw [List.getElem?_map, List.getElem?_map, hnone]
    rfl

theorem process_single_paper_id {st : SentTokenizer} {cl : Classifier}
    {i : Nat} {p : Paper} {r : PaperRecord}
    (h : process_single_paper st cl (i, p) = Except.ok (some r)) :
    r.paper_id = i := by
  obtain ⟨rid, rcc⟩ := r
  simp only [process_single_paper] at h
  by_cases h1 : p.term_counts.isEmpty
  · simp [h1] at h
  · simp only [h1, Bool.false_eq_true, if_false] at h
    by_cases h2 : stripIsEmpty p.cleaned_text
    · simp [h2] at h
    · simp only [h2, Bool.false_eq_true, if_false] at h
      rcases hk1 : getKey (merge_additional p.term_counts
          (analyze_text_with_huggingface st cl p.cleaned_text))
          "mental health terms" with e | mh
      · simp only [hk1] at h
        exact Except.noConfusion h
      · simp only [hk1] at h
        rcases hc1 : categorize_terms mh (Categories.list mental_health_terms)
          with e | mhC
        · simp only [hc1] at h
          exact Except.noConfusion h
        · simp only [hc1] at h
          rcases hk2 : getKey (merge_additional p.term_counts
              (analyze_text_with_huggingface st cl p.cleaned_text))
              "epigenetic terms" with e | ep
          · simp only [hk2] at h
            exact Except.noConfusion h
          · simp only [hk2] at h
            rcases hc2 : categorize_terms ep (Categories.list epigenetic_terms)
              with e | epC
            · simp only [hc2] at h
              exact Except.noConfusion h
            · simp only [hc2] at h
              rcases hk3 : getKey (merge_additional p.term_counts
                  (analyze_text_with_huggingface st cl p.cleaned_text))
                  "socioeconomic terms" with e | se
              · simp only [hk3] at h
                exact Except.noConfusion h
              · simp only [hk3] at h
                rcases hc3 : categorize_terms se (Categories.list socioeconomic_terms)
                  with e | seC
                · simp only [hc3] at h
                  exact Except.noConfusion h
                · simp only [hc3] at h
                  rcases hk4 : getKey (merge_additional p.term_counts
                      (analyze_text_with_huggingface st cl p.cleaned_text))
                      "ethnographic terms" with e | et
                  · simp only [hk4] at h
                    exact Except.noConfusion h
                  · simp only [hk4] at h
                    rcases hc4 : categorize_terms et ethnographic_categories
                      with e | etC
                    · simp only [hc4] at h
                      exact Except.noConfusion h
                    · simp only [hc4] at h
                      simp only [Except.ok.injEq, Option.some.injEq,
                        PaperRecord.mk.injEq] at h
                      exact h.1.symm

theorem process_single_paper_skip {st : SentTokenizer} {cl : Classifier}
    {i : Nat} {p : Paper}
    (h : p.term_counts = [] ∨ stripIsEmpty p.cleaned_text = true) :
    process_single_paper st cl (i, p) = Except.ok none := by
  rcases h with h1 | h2
  · simp [process_single_paper, h1]
  · by_cases h1 : p.term_counts.isEmpty
    · simp [process_single_paper, h1]
    · simp [process_single_paper, h1, h2]

/-- Claim C3: order preservation of the corpus aggregator
(modeling.py:214-219).  For any completion schedule of the worker pool that
is a permutation of the input positions, the aggregation result equals the
result of the sequential pass in input order; and whenever that result is a
success, the output sequence is exactly the records of the non-skipped
papers, in the order of `enumerate(papers, start=1)`, each record carrying as
`paper_id` the 1-based input position of the paper that produced it. -/
theorem aggregator_order (st : SentTokenizer) (cl : Classifier)
    (papers : List Paper) (schedule : List Nat)
    (hperm : schedule.Perm (List.range papers.length)) :
    process_articles_sched st cl papers schedule = process_articles st cl papers
    ∧ ∀ out, process_articles st cl papers = Except.ok out →
        out = (List.enumFrom 1 papers).filterMap
          (fun ip => okJoin (process_single_paper st cl ip))
        ∧ ∀ r ∈ out, ∃ p, (r.paper_id, p) ∈ List.enumFrom 1 papers
            ∧ process_single_paper st cl (r.paper_id, p) = Except.ok (some r) := by
  constructor
  · rw [process_articles_sched, process_articles,
      runScheduleAll_perm _ _ _ (by rw [List.enumFrom_length]; exact hperm)]
  · intro out hout
    have heq := process_articles_ok hout
    refine ⟨heq, ?_⟩
    intro r hr
    rw [heq] at hr
    rcases List.mem_filterMap.mp hr with ⟨ip, hip, hjoin⟩
    rcases hps : process_single_paper st cl ip with e | v
    · rw [hps] at hjoin
      simp [okJoin] at hjoin
    · rcases v with _ | r2
      · rw [hps] at hjoin
        simp [okJoin] at hjoin
      · rw [hps] at hjoin
        simp only [okJoin, Option.some.injEq] at hjoin
        subst hjoin
        obtain ⟨i0, p0⟩ := ip
        have hid : r2.paper_id = i0 := process_single_paper_id hps
        exact ⟨p0, by rw [hid]; exact hip, by rw [hid]; exact hps⟩

/-- Witness for C3 at the concrete scenario of the claim: three papers and a
pool completing in the order C, A, B (schedule [2, 0, 1]); the output is
still the A, B, C records with ids 1, 2, 3. -/
theorem aggregator_order_witness :
    (process_articles_sched stubTok stubCl [pA, pB, pC] [2, 0, 1]
        = process_articles stubTok stubCl [pA, pB, pC]
      ∧ ∀ out, process_articles stubTok stubCl [pA, pB, pC] = Except.ok out →
          out = (List.enumFrom 1 [pA, pB, pC]).filterMap
            (fun ip => okJoin (process_single_paper stubTok stubCl ip))
          ∧ ∀ r ∈ out, ∃ p, (r.paper_id, p) ∈ List.enumFrom 1 [pA, pB, pC]
              ∧ process_single_paper stubTok stubCl (r.paper_id, p)
                  = Except.ok (some r))
      ∧ (process_articles stubTok stubCl [pA, pB, pC]).map
          (fun out => out.map (fun r => r.paper_id)) = Except.ok [1, 2, 3] :=
  ⟨aggregator_order stubTok stubCl [pA, pB, pC] [2, 0, 1] (by decide), rfl⟩

/-- Claim C4: the skip preconditions of the document processor
(modeling.py:177-184) and their propagation through the aggregator
(modeling.py:218-219).  A paper with empty `term_counts`, and a paper whose
text is whitespace-only, is mapped to `None` for every tokenizer and every
classifier (the checks run before the oracle is consulted, so the result
does not depend on it), and no record with that paper's 1-based position as
id occurs in any successful aggregator output. -/
theorem skip_behavior (st : SentTokenizer) (cl : Classifier) (i : Nat) (p : Paper)
    (h : p.term_counts = [] ∨ stripIsEmpty p.cleaned_text = true) :
    process_single_paper st cl (i, p) = Except.ok none
    ∧ ∀ papers out k, papers[k]? = some p →
        process_articles st cl papers = Except.ok out →
        ∀ r ∈ out, r.paper_id ≠ k + 1 := by
  refine ⟨process_single_paper_skip h, ?_⟩
  intro papers out k hk hout r hr he
  have heq := process_articles_ok hout
  rw [heq] at hr
  rcases List.mem_filterMap.mp hr with ⟨ip, hip, hjoin⟩
  rcases List.mem_iff_getElem?.mp hip with ⟨j, hj⟩
  rw [List.getElem?_enumFrom] at hj
  rcases hpj : papers[j]? with _ | q
  · rw [hpj] at hj
    cases hj
  · rw [hpj] at hj
    have hip2 : (1 + j, q) = ip := by simpa using hj
    rcases hps : process_single_paper st cl ip with e | v
    · rw [hps] at hjoin
      simp [okJoin] at hjoin
    · rcases v with _ | r2
      · rw [hps] at hjoin
        simp [okJoin] at hjoin
      · rw [hps] at hjoin
        simp only [okJoin, Option.some.injEq] at hjoin
        subst hjoin
        rw [← hip2] at hps
        have hid : r2.paper_id = 1 + j := process_single_paper_id hps
        have hjk : j = k := by omega
        subst hjk
        have hq : q = p := by
          rw [hpj] at hk
          exact Option.some.inj hk
        rw [hq, process_single_paper_skip h] at hps
        exact Option.noConfusion (Except.ok.inj hps)

/-- Witness for C4: the empty-`term_counts` paper and the whitespace-only
paper are both skipped; in the corpus `[pA, pEmpty, pSkip, pB]` the output
holds only the records of `pA` and `pB`, with ids 1 and 4 (no entry for
positions 2 and 3). -/
theorem skip_behavior_witness :
    (process_single_paper stubTok stubCl (2, pEmpty) = Except.ok none
      ∧ ∀ papers out k, papers[k]? = some pEmpty →
          process_articles stubTok stubCl papers = Except.ok out →
          ∀ r ∈ out, r.paper_id ≠ k + 1)
    ∧ (process_single_paper stubTok stubCl (3, pSkip) = Except.ok none
      ∧ ∀ papers out k, papers[k]? = some pSkip →
          process_articles stubTok stubCl papers = Except.ok out →
          ∀ r ∈ out, r.paper_id ≠ k + 1)
    ∧ (process_articles stubTok stubCl [pA, pEmpty, pSkip, pB]).map
        (fun out => out.map (fun r => r.paper_id)) = Except.ok [1, 4] :=
  ⟨skip_behavior stubTok stubCl 2 pEmpty (Or.inl rfl),
   skip_behavior stubTok stubCl 3 pSkip (Or.inr rfl), rfl⟩

/-- The claim C9 as stated fails on the code: a malformed paper whose
non-empty `term_counts` lacks the key "mental health terms" raises `KeyError`
inside its worker (modeling.py:196); the exception propagates through
`list(executor.map(...))` (modeling.py:216) and aborts the whole run, so the
remaining papers — although they process fine individually — are not written
to the output artifact. -/
theorem worker_error_aborts_cex :
    process_single_paper stubTok stubCl (1, pA)
        = Except.ok (some ⟨1,
            [("Mental Health", [("General", [("PTSD", 2)])]),
             ("Epigenetic", []), ("Socioeconomic", []), ("Ethnographic", [])]⟩)
      ∧ process_single_paper stubTok stubCl (3, pC)
        = Except.ok (some ⟨3,
            [("Mental Health", []), ("Epigenetic", []), ("Socioeconomic", []),
             ("Ethnographic", [("Arab descent", [("Arab person", 3)])])]⟩)
      ∧ process_articles stubTok stubCl [pA, pBad, pC]
        = Except.error (PyError.keyError "mental health terms") :=
  ⟨rfl, rfl, rfl⟩

/-- Claim C9 (amended): an uncaught error in any single worker aborts the
whole aggregation — `process_articles` propagates the exception and produces
no output artifact at all, rather than the remaining documents' records. -/
theorem worker_error_aborts (st : SentTokenizer) (cl : Classifier)
    (papers : List Paper)
    (h : ∃ ip e, ip ∈ List.enumFrom 1 papers
        ∧ process_single_paper st cl ip = Except.error e) :
    ∃ e2, process_articles st cl papers = Except.error e2 := by
  rcases h with ⟨ip, e, hip, herr⟩
  have hmem : Except.error e ∈ (List.enumFrom 1 papers).map (process_single_paper st cl) :=
    List.mem_map.mpr ⟨ip, hip, herr⟩
  rcases collectResults_error_of_mem hmem with ⟨e2, hc⟩
  exact ⟨e2, by rw [process_articles, hc]⟩

/-- Witness for C9 (amended): the corpus `[pA, pBad, pC]` with the malformed
`pBad` at position 2 aborts with the propagated `KeyError`. -/
theorem worker_error_aborts_witness :
    ∃ e2, process_articles stubTok stubCl [pA, pBad, pC] = Except.error e2 :=
  worker_error_aborts stubTok stubCl [pA, pBad, pC]
    ⟨(2, pBad), PyError.keyError "mental health terms", by decide, rfl⟩
